import Mathlib

/-!
Verification development for the TEMPs end-to-end-encrypted chat relay.

The development shallowly embeds the two relay variants and the client of
the repository:
  * `src/src/encryption.py` — X25519 + HKDF key agreement and AES-GCM
    authenticated encryption (the library primitives are modelled
    algebraically at the level of their contracts, the wrapper code is
    translated directly);
  * `src/src/client.py`   — the chat client (peer cache, fan-out, receive loop);
  * `src/server.py`       — the room-isolated FastAPI relay (ConnectionManager);
  * `src/src/server.py`   — the single-shared-room websockets relay (ChatServer).

Bytes are modelled as natural numbers below 256, byte strings as `List Nat`,
channels as `Nat` handles, and randomness (nonce draws) as explicit
parameters.  Fallible operations return `Option`, with `none` modelling a
raised exception.
-/

/-! ### Byte strings and the base64 transport encoding

The python code moves nonces, ciphertexts and public keys through
`base64.b64encode` / `base64.b64decode`.  We model base64 at the level of
6-bit symbols: a byte string (list of naturals below 256) is encoded into a
list of sextets (naturals below 64), with 64 standing for the padding
character. -/

/-- ValidBytes l: every element of l is a byte value (below 256). -/
def ValidBytes (l : List Nat) : Prop := ∀ b ∈ l, b < 256

instance : DecidablePred ValidBytes := fun l => List.decidableBAll _ l

/-- Model of base64.b64encode: groups of three bytes become four sextets,
a trailing group of one or two bytes is padded with the marker 64. -/
def b64encode : List Nat → List Nat
  | [] => []
  | [a] => [a / 4, a % 4 * 16, 64, 64]
  | [a, b] => [a / 4, a % 4 * 16 + b / 16, b % 16 * 4, 64]
  | a :: b :: c :: rest =>
      (a / 4) :: (a % 4 * 16 + b / 16) :: (b % 16 * 4 + c / 64) :: (c % 64) ::
        b64encode rest

/-- Model of base64.b64decode: four sextets become up to three bytes,
honouring the padding marker 64.  Inputs that are not a whole number of
quads decode to the empty byte string. -/
def b64decode : List Nat → List Nat
  | w :: x :: y :: z :: rest =>
      if z = 64 then
        if y = 64 then [w * 4 + x / 16]
        else [w * 4 + x / 16, x % 16 * 16 + y / 4]
      else
        (w * 4 + x / 16) :: (x % 16 * 16 + y / 4) :: (y % 4 * 64 + z) ::
          b64decode rest
  | _ => []

/-! ### KeyExchange (src/src/encryption.py)

The X25519 primitive of the cryptography library is modelled algebraically:
scalar multiplication on the curve is exponentiation in a commutative
monoid, namely the naturals modulo the curve prime 2^255 - 19, with the
standard base point u = 9.  HKDF-SHA256 is modelled as a deterministic
function of the shared secret, the salt and the info label that produces
the requested number of bytes. -/

def p25519 : Nat := 2 ^ 255 - 19

/-- Model of X25519PrivateKey.public_key: the public point of a private
scalar a is the scalar multiple a of the base point 9, written here as
9 ^ a in the modelled group. -/
def x25519_public_key (a : Nat) : Nat := 9 ^ a % p25519

/-- Model of X25519PrivateKey.exchange: the raw shared secret is the scalar
multiple a of the peer public point. -/
def x25519_exchange (a : Nat) (peerPoint : Nat) : Nat := peerPoint ^ a % p25519

/-- HKDF_SALT = b"temp-chat-e2ee" (ASCII bytes), from encryption.py. -/
def HKDF_SALT : List Nat := [116, 101, 109, 112, 45, 99, 104, 97, 116, 45, 101, 50, 101, 101]

/-- HKDF_INFO = b"shared-room-key" (ASCII bytes), from encryption.py. -/
def HKDF_INFO : List Nat := [115, 104, 97, 114, 101, 100, 45, 114, 111, 111, 109, 45, 107, 101, 121]

def AES_KEY_SIZE : Nat := 32

def NONCE_SIZE : Nat := 12

/-- Model of HKDF(SHA256, length, salt, info).derive(secret): a
deterministic expansion of the shared secret into `len` bytes, keyed by the
salt and the info label. -/
def hkdf_sha256 (secret : Nat) (salt info : List Nat) (len : Nat) : List Nat :=
  (List.range len).map (fun i => (secret + salt.sum * 131 + info.sum * 31 + i * 17) % 256)

/-- derive_shared_key from encryption.py: ECDH exchange followed by HKDF
with the fixed salt and context label, producing a 32-byte AES key. -/
def derive_shared_key (private_key : Nat) (peer_public_key : Nat) : List Nat :=
  hkdf_sha256 (x25519_exchange private_key peer_public_key) HKDF_SALT HKDF_INFO AES_KEY_SIZE

/-! ### AEADCodec (src/src/encryption.py)

AES-GCM from the cryptography library is modelled at the level of its
contract: counter-mode encryption with a keystream determined by the key
and the nonce, followed by a 16-byte authentication tag computed over the
key, the nonce and the ciphertext body.  Decryption recomputes the tag and
fails (None, modelling the InvalidTag exception) unless it matches. -/

/-- Model of the AES-CTR keystream byte at position i under (key, nonce). -/
def keystream (key nonce : List Nat) (i : Nat) : Nat :=
  (key.sum * 131 + nonce.sum * 31 + i * 17 + 7) % 256

def ctrEncrypt (key nonce : List Nat) : Nat → List Nat → List Nat
  | _, [] => []
  | i, p :: rest => (p + keystream key nonce i) % 256 :: ctrEncrypt key nonce (i + 1) rest

def ctrDecrypt (key nonce : List Nat) : Nat → List Nat → List Nat
  | _, [] => []
  | i, c :: rest => (c + 256 - keystream key nonce i) % 256 :: ctrDecrypt key nonce (i + 1) rest

/-- Model of the 16-byte GCM authentication tag: it binds the ciphertext
body, the nonce, the key and the body length. -/
def gcmTag (key nonce body : List Nat) : List Nat :=
  [body.sum % 256, nonce.sum % 256, key.sum % 256, body.length % 256] ++ List.replicate 12 0

/-- Model of AESGCM(key).encrypt(nonce, data, None): the ciphertext is the
encrypted body followed by the 16-byte tag. -/
def aesgcm_encrypt (key nonce data : List Nat) : List Nat :=
  ctrEncrypt key nonce 0 data ++ gcmTag key nonce (ctrEncrypt key nonce 0 data)

/-- Model of AESGCM(key).decrypt(nonce, ct, None): split off the 16-byte
tag, recompute it over the body, fail (InvalidTag) on mismatch. -/
def aesgcm_decrypt (key nonce ct : List Nat) : Option (List Nat) :=
  if ct.length < 16 then none
  else
    let body := ct.take (ct.length - 16)
    let tag := ct.drop (ct.length - 16)
    if tag = gcmTag key nonce body then some (ctrDecrypt key nonce 0 body) else none

/-- encrypt_message from encryption.py.  The nonce drawn by os.urandom is
passed explicitly; the returned pair is the base64 nonce and the base64
ciphertext. -/
def encrypt_message (key : List Nat) (nonce : List Nat) (plaintext : List Nat) :
    List Nat × List Nat :=
  (b64encode nonce, b64encode (aesgcm_encrypt key nonce plaintext))

/-- decrypt_message from encryption.py: base64-decode the nonce and the
ciphertext and run authenticated decryption; None models the exception
raised on an authentication failure. -/
def decrypt_message (key : List Nat) (nonce_b64 : List Nat) (ciphertext_b64 : List Nat) :
    Option (List Nat) :=
  aesgcm_decrypt key (b64decode nonce_b64) (b64decode ciphertext_b64)

/-! ### Association lists

Python dictionaries (insertion-ordered, unique keys) are modelled as
association lists over String keys. -/

def alookup {β : Type} (k : String) : List (String × β) → Option β
  | [] => none
  | p :: rest => if p.1 = k then some p.2 else alookup k rest

def replaceA {β : Type} (k : String) (v : β) : List (String × β) → List (String × β)
  | [] => []
  | p :: rest => if p.1 = k then (k, v) :: replaceA k v rest else p :: replaceA k v rest

def removeA {β : Type} (k : String) : List (String × β) → List (String × β)
  | [] => []
  | p :: rest => if p.1 = k then removeA k rest else p :: removeA k rest

/-- Model of python dict assignment d[k] = v: overwrite in place if the key
is present, append otherwise. -/
def dictInsert {β : Type} (l : List (String × β)) (k : String) (v : β) : List (String × β) :=
  if (alookup k l).isSome then replaceA k v l else l ++ [(k, v)]

/-! ### ChatClient (src/src/client.py) -/

/-- State of a ChatClient: its username, the private scalar of its X25519
key pair, and the shared_keys cache mapping peer username to the derived
32-byte key. -/
structure ChatClientState where
  username : String
  private_key : Nat
  shared_keys : List (String × List Nat)
deriving DecidableEq

/-- Little-endian interpretation of a byte string as a group element. -/
def bytesToNat : List Nat → Nat
  | [] => 0
  | b :: rest => b + 256 * bytesToNat rest

/-- KeyPair.deserialize_public_key: base64-decode and reconstruct an X25519
public point; fails (None, modelling the raised exception) unless the
decoded string is exactly 32 bytes. -/
def deserialize_public_key (data : List Nat) : Option Nat :=
  if (b64decode data).length = 32 then some (bytesToNat (b64decode data)) else none

/-- Observable actions of the client (terminal prints in client.py). -/
inductive ClientEvent where
  | keyEstablished (peer : String)
  | systemNote (message : String)
  | noSharedKey (sender : String)
  | cannotDecrypt (sender : String)
  | received (sender : String) (plaintext : List Nat)
deriving DecidableEq

/-- ChatClient.add_peer: ignore our own handshake, otherwise deserialize
the peer public key, derive the shared key and store it under the peer
username.  None models the uncaught exception when deserialization fails. -/
def add_peer (st : ChatClientState) (username : String) (public_key_b64 : List Nat) :
    Option (ChatClientState × List ClientEvent) :=
  if username = st.username then some (st, [])
  else
    match deserialize_public_key public_key_b64 with
    | none => none
    | some pk =>
        some ({ st with shared_keys :=
                  dictInsert st.shared_keys username (derive_shared_key st.private_key pk) },
              [ClientEvent.keyEstablished username])

/-- Inbound wire data as seen by ChatClient.handle_incoming after
json.loads: junk models data that fails to parse, other models an
unrecognized type tag.  Handshake fields that are missing in the JSON are
modelled by the falsy values "" and []. -/
inductive ClientInbound where
  | junk
  | handshake (username : String) (public_key : List Nat)
  | system (message : String)
  | chat (sender : String) (payloads : List (String × (List Nat × List Nat)))
  | other
deriving DecidableEq

/-- One iteration of ChatClient.handle_incoming on a single inbound
message.  None models an exception escaping the loop body (only possible
from add_peer); every other path continues the loop. -/
def client_step (st : ChatClientState) : ClientInbound → Option (ChatClientState × List ClientEvent)
  | ClientInbound.junk => some (st, [])
  | ClientInbound.handshake username public_key =>
      if username ≠ "" ∧ public_key ≠ [] then add_peer st username public_key
      else some (st, [])
  | ClientInbound.system message => some (st, [ClientEvent.systemNote message])
  | ClientInbound.chat sender payloads =>
      if sender = st.username then some (st, [])
      else
        match alookup st.username payloads with
        | none => some (st, [])
        | some payload =>
            match alookup sender st.shared_keys with
            | none => some (st, [ClientEvent.noSharedKey sender])
            | some key =>
                match decrypt_message key payload.1 payload.2 with
                | none => some (st, [ClientEvent.cannotDecrypt sender])
                | some plaintext => some (st, [ClientEvent.received sender plaintext])
  | ClientInbound.other => some (st, [])

/-- ChatClient.handle_incoming over a list of inbound messages: the loop
body is client_step; a None step (escaped exception) ends the session. -/
def handle_incoming : ChatClientState → List ClientInbound → Option ChatClientState × List ClientEvent
  | st, [] => (some st, [])
  | st, m :: rest =>
      match client_step st m with
      | none => (none, [])
      | some (st1, evs) =>
          let r := handle_incoming st1 rest
          (r.1, evs ++ r.2)

/-- Chat envelope emitted by ChatClient.send_messages: a type:"chat" JSON
object with the sender and one payload entry per peer. -/
structure ChatEnvelope where
  sender : String
  payloads : List (String × (List Nat × List Nat))
deriving DecidableEq

/-- Outcome of one iteration of ChatClient.send_messages: empty input is
skipped, an empty key cache is reported as no peers (nothing sent),
otherwise exactly one chat envelope is sent. -/
inductive SendResult where
  | skipped
  | noPeers
  | sent (envelope : ChatEnvelope)
deriving DecidableEq

/-- One iteration of ChatClient.send_messages on input text (utf-8 bytes,
already stripped).  nonceFor models the independent os.urandom draw made
for each peer during the fan-out loop. -/
def send_message (st : ChatClientState) (text : List Nat) (nonceFor : String → List Nat) :
    SendResult :=
  if text = [] then SendResult.skipped
  else if st.shared_keys = [] then SendResult.noPeers
  else SendResult.sent
    ⟨st.username, st.shared_keys.map (fun p => (p.1, encrypt_message p.2 (nonceFor p.1) text))⟩

/-! ### ConnectionManager (src/server.py, room-isolated FastAPI relay) -/

/-- ClientConnection dataclass from server.py; the websocket handle is a
Nat channel id. -/
structure ClientConnection where
  channel : Nat
  room_id : String
  user_id : String
deriving DecidableEq

/-- MessageEnvelope pydantic model from server.py. -/
structure MessageEnvelope where
  sender_id : String
  room_id : String
  ciphertext : String
  nonce : String
  timestamp : Nat
  signature : String
deriving DecidableEq

/-- ConnectionManager state: connections maps user_id to its connection,
rooms maps room_id to its member set (insertion-ordered). -/
structure ConnectionManager where
  connections : List (String × ClientConnection)
  rooms : List (String × List String)
deriving DecidableEq

def emptyCM : ConnectionManager := ⟨[], []⟩

/-- Member-set insertion, modelling defaultdict(set) access plus set.add. -/
def roomsAdd (rooms : List (String × List String)) (room_id user_id : String) :
    List (String × List String) :=
  match alookup room_id rooms with
  | none => rooms ++ [(room_id, [user_id])]
  | some ms => replaceA room_id (if user_id ∈ ms then ms else ms ++ [user_id]) rooms

/-- Member-set removal, modelling set.discard followed by deleting the room
when its member set became empty. -/
def roomsDiscard (rooms : List (String × List String)) (room_id user_id : String) :
    List (String × List String) :=
  match alookup room_id rooms with
  | none => rooms
  | some ms =>
      if ms.erase user_id = [] then removeA room_id rooms
      else replaceA room_id (ms.erase user_id) rooms

/-- ConnectionManager.connect: reject with HTTP 409 before accepting the
channel if the user already has a live connection; otherwise accept the
channel and register connection and room membership.  The result carries
the new state, the optional error status code, and whether the channel was
accepted. -/
def cm_connect (st : ConnectionManager) (room_id user_id : String) (channel : Nat) :
    ConnectionManager × Option Nat × Bool :=
  match alookup user_id st.connections with
  | some _ => (st, some 409, false)
  | none =>
      ({ connections := st.connections ++ [(user_id, ⟨channel, room_id, user_id⟩)],
         rooms := roomsAdd st.rooms room_id user_id }, none, true)

/-- ConnectionManager.disconnect: a no-op when the user is not registered;
otherwise drop the connection and its room membership, deleting the room
if it became empty. -/
def cm_disconnect (st : ConnectionManager) (user_id : String) : ConnectionManager :=
  match alookup user_id st.connections with
  | none => st
  | some conn =>
      { connections := removeA user_id st.connections,
        rooms := roomsDiscard st.rooms conn.room_id user_id }

/-- ConnectionManager.list_room_members (snapshot read). -/
def listMembers (st : ConnectionManager) (room_id : String) : List String :=
  (alookup room_id st.rooms).getD []

/-- Sequential delivery loop of ConnectionManager.broadcast.  The sends
are awaited one after another with no exception handling, so the first
failing send aborts the loop and the exception propagates (second
component true).  failing tells which channels raise on send. -/
def broadcastGo (conns : List (String × ClientConnection)) (failing : Nat → Bool) :
    List String → List (String × Nat) × Bool
  | [] => ([], false)
  | u :: rest =>
      match alookup u conns with
      | none => broadcastGo conns failing rest
      | some conn =>
          if failing conn.channel then ([], true)
          else
            ((u, conn.channel) :: (broadcastGo conns failing rest).1,
             (broadcastGo conns failing rest).2)

/-- ConnectionManager.broadcast: recipients are the members of the
envelope room minus the sender; each recipient with a registered
connection gets the envelope, sequentially. -/
def cm_broadcast (st : ConnectionManager) (failing : Nat → Bool) (e : MessageEnvelope) :
    List (String × Nat) × Bool :=
  broadcastGo st.connections failing
    ((listMembers st e.room_id).filter (fun u => u ≠ e.sender_id))

/-- Registry well-formedness, maintained by connect/disconnect: unique
connection keys, unique room keys, and every room is a nonempty
duplicate-free member set whose members are registered connections bound
to that room. -/
def RegistryWf (st : ConnectionManager) : Prop :=
  (st.connections.map Prod.fst).Nodup ∧
  (st.rooms.map Prod.fst).Nodup ∧
  ∀ p ∈ st.rooms, p.2 ≠ [] ∧ p.2.Nodup ∧
    ∀ u ∈ p.2, (alookup u st.connections).map (fun c => c.room_id) = some p.1

instance : DecidablePred RegistryWf := fun st => by unfold RegistryWf; infer_instance

/-- Folding cm_connect over a list of identities joining one room; chOf
assigns each identity its channel handle. -/
def connectAll (st : ConnectionManager) (room_id : String) (ids : List String)
    (chOf : String → Nat) : ConnectionManager :=
  ids.foldl (fun s u => (cm_connect s room_id u (chOf u)).1) st

/-- Inbound event of the websocket_endpoint loop in server.py: closed
models WebSocketDisconnect, bad models data on which receive_json or the
MessageEnvelope validation raises, env a well-formed envelope. -/
inductive ServerInbound where
  | closed
  | bad
  | env (e : MessageEnvelope)
deriving DecidableEq

/-- One iteration of the websocket_endpoint loop of server.py for the
connection of user_id.  The Bool tells whether the loop continues:
WebSocketDisconnect runs disconnect; any other exception (malformed
inbound data, or a send failure propagating out of broadcast) closes the
socket with code 1011, runs disconnect and re-raises, ending the loop. -/
def websocket_endpoint_step (st : ConnectionManager) (user_id : String) (failing : Nat → Bool) :
    ServerInbound → ConnectionManager × Bool
  | ServerInbound.closed => (cm_disconnect st user_id, false)
  | ServerInbound.bad => (cm_disconnect st user_id, false)
  | ServerInbound.env e =>
      if (cm_broadcast st failing e).2 then (cm_disconnect st user_id, false) else (st, true)

/-! ### ChatServer (src/src/server.py, single shared room)

Only the clients set matters to broadcast; the usernames and handshakes
dictionaries of the class do not enter the broadcast path. -/

structure ChatServer where
  clients : List Nat
deriving DecidableEq

/-- ChatServer.broadcast: nothing to do without clients, otherwise send to
every connected client concurrently via asyncio.gather with
return_exceptions=True — every send is attempted and per-send failures are
collected and discarded, never raised.  Each output pair is a channel and
whether its send succeeded; the second component (an exception
propagating) is always false. -/
def cs_broadcast (st : ChatServer) (failing : Nat → Bool) : List (Nat × Bool) × Bool :=
  if st.clients = [] then ([], false)
  else (st.clients.map (fun ch => (ch, !failing ch)), false)

/-! ### Concrete states used by witnesses and counterexamples -/

def exKey1 : List Nat := (List.range 32).map (fun i => i + 3)

def exKey2 : List Nat := (List.range 32).map (fun i => 2 * i + 1)

def exNonce : List Nat := List.range 12

def exClient : ChatClientState := ⟨"alice", 5, [("bob", exKey1), ("carol", exKey2)]⟩

def exNonceFor : String → List Nat :=
  fun p => if p = "bob" then List.range 12 else (List.range 12).map (fun i => i + 100)

def exCM1 : ConnectionManager :=
  ⟨[("alice", ⟨1, "r1", "alice"⟩)], [("r1", ["alice"])]⟩

def exCM3 : ConnectionManager :=
  ⟨[("alice", ⟨1, "r1", "alice"⟩), ("bob", ⟨2, "r1", "bob"⟩), ("carol", ⟨3, "r1", "carol"⟩)],
   [("r1", ["alice", "bob", "carol"])]⟩

def exEnv : MessageEnvelope := ⟨"alice", "r1", "ct", "n", 0, "sig"⟩

def exFailBob : Nat → Bool := fun ch => ch == 2

/-! ### Helper lemmas: base64 -/

theorem b64decode_b64encode (l : List Nat) (h : ValidBytes l) :
    b64decode (b64encode l) = l := by
  induction l using b64encode.induct with
  | case1 => rfl
  | case2 a =>
      have ha : a < 256 := h a (by simp)
      simp [b64encode, b64decode]
      omega
  | case3 a b =>
      have ha : a < 256 := h a (by simp)
      have hb : b < 256 := h b (by simp)
      have hy : ¬ b % 16 * 4 = 64 := by omega
      simp [b64encode, b64decode, hy]
      omega
  | case4 a b c rest ih =>
      have ha : a < 256 := h a (by simp)
      have hb : b < 256 := h b (by simp)
      have hc : c < 256 := h c (by simp)
      have hz : ¬ c % 64 = 64 := by omega
      have hrest : ValidBytes rest := fun x hx => h x (by simp [hx])
      simp [b64encode, b64decode, hz, ih hrest]
      omega

theorem b64encode_injOn {l1 l2 : List Nat} (h1 : ValidBytes l1)
    (h2 : ValidBytes l2) (h : b64encode l1 = b64encode l2) : l1 = l2 := by
  have := b64decode_b64encode l1 h1
  rw [h, b64decode_b64encode l2 h2] at this
  exact this.symm

/-! ### Helper lemmas: key derivation and AEAD -/

theorem length_derive_shared_key (a B : Nat) :
    (derive_shared_key a B).length = 32 := by
  simp [derive_shared_key, hkdf_sha256, AES_KEY_SIZE]

theorem x25519_exchange_comm (a b : Nat) :
    x25519_exchange a (x25519_public_key b) = x25519_exchange b (x25519_public_key a) := by
  unfold x25519_exchange x25519_public_key
  rw [← Nat.pow_mod, ← Nat.pow_mod, ← pow_mul, ← pow_mul, Nat.mul_comm]

theorem length_ctrEncrypt (key nonce : List Nat) :
    ∀ i data, (ctrEncrypt key nonce i data).length = data.length := by
  intro i data
  induction data generalizing i with
  | nil => rfl
  | cons p rest ih => simp [ctrEncrypt, ih]

theorem validBytes_ctrEncrypt (key nonce : List Nat) :
    ∀ i data, ValidBytes (ctrEncrypt key nonce i data) := by
  intro i data
  induction data generalizing i with
  | nil => intro b hb; simp [ctrEncrypt] at hb
  | cons p rest ih =>
      intro b hb
      simp [ctrEncrypt] at hb
      rcases hb with hb | hb
      · omega
      · exact ih (i + 1) b hb

theorem keystream_lt (key nonce : List Nat) (i : Nat) : keystream key nonce i < 256 := by
  simp [keystream]
  omega

theorem ctrDecrypt_ctrEncrypt (key nonce : List Nat) :
    ∀ i data, ValidBytes data → ctrDecrypt key nonce i (ctrEncrypt key nonce i data) = data := by
  intro i data
  induction data generalizing i with
  | nil => intro _; rfl
  | cons p rest ih =>
      intro h
      have hp : p < 256 := h p (by simp)
      have hrest : ValidBytes rest := fun x hx => h x (by simp [hx])
      have hk := keystream_lt key nonce i
      simp [ctrEncrypt, ctrDecrypt, ih (i + 1) hrest]
      omega

theorem length_gcmTag (key nonce body : List Nat) : (gcmTag key nonce body).length = 16 := by
  simp [gcmTag]

theorem validBytes_gcmTag (key nonce body : List Nat) : ValidBytes (gcmTag key nonce body) := by
  intro b hb
  simp [gcmTag] at hb
  rcases hb with h | h | h | h | h <;> omega

theorem validBytes_aesgcm_encrypt (key nonce data : List Nat) :
    ValidBytes (aesgcm_encrypt key nonce data) := by
  intro b hb
  simp [aesgcm_encrypt] at hb
  rcases hb with h | h
  · exact validBytes_ctrEncrypt key nonce 0 data b h
  · exact validBytes_gcmTag key nonce _ b h

theorem aesgcm_decrypt_aesgcm_encrypt (key nonce data : List Nat) (h : ValidBytes data) :
    aesgcm_decrypt key nonce (aesgcm_encrypt key nonce data) = some data := by
  unfold aesgcm_decrypt aesgcm_encrypt
  have hlen : (ctrEncrypt key nonce 0 data ++ gcmTag key nonce (ctrEncrypt key nonce 0 data)).length
      = data.length + 16 := by
    simp [length_ctrEncrypt, length_gcmTag]
  rw [hlen]
  have hnot : ¬ data.length + 16 < 16 := by omega
  rw [if_neg hnot]
  have hbl : data.length + 16 - 16 = (ctrEncrypt key nonce 0 data).length := by
    simp [length_ctrEncrypt]
  rw [hbl, List.take_left, List.drop_left, if_pos rfl, ctrDecrypt_ctrEncrypt key nonce 0 data h]

/-! ### Helper lemmas: sums and single-byte edits -/

theorem sum_set_getD (l : List Nat) :
    ∀ i v, i < l.length → (l.set i v).sum + l.getD i 0 = l.sum + v := by
  induction l with
  | nil => intro i v h; simp at h
  | cons a rest ih =>
      intro i v h
      cases i with
      | zero => simp [List.set, List.getD]; omega
      | succ j =>
          have hj : j < rest.length := by simpa using h
          have := ih j v hj
          simp [List.set, List.getD] at this ⊢
          omega

theorem getD_lt_of_validBytes {l : List Nat} (h : ValidBytes l) {i : Nat}
    (hi : i < l.length) : l.getD i 0 < 256 := by
  have : l.getD i 0 ∈ l := by
    rw [List.getD_eq_getElem l 0 hi]
    exact List.getElem_mem hi
  exact h _ this

theorem sum_set_mod_ne {l : List Nat} (h : ValidBytes l) {i v : Nat}
    (hi : i < l.length) (hv : v < 256) (hne : v ≠ l.getD i 0) :
    (l.set i v).sum % 256 ≠ l.sum % 256 := by
  have hs := sum_set_getD l i v hi
  have hb := getD_lt_of_validBytes h hi
  omega

/-! ### Helper lemmas: association lists -/

theorem alookup_eq_none {β : Type} (k : String) (l : List (String × β)) :
    alookup k l = none ↔ k ∉ l.map Prod.fst := by
  induction l with
  | nil => simp [alookup]
  | cons p rest ih =>
      by_cases hp : p.1 = k
      · simp [alookup, hp]
      · simp [alookup, hp, ih, Ne.symm hp]

theorem alookup_mem {β : Type} {k : String} {l : List (String × β)} {v : β}
    (h : alookup k l = some v) : (k, v) ∈ l := by
  induction l with
  | nil => simp [alookup] at h
  | cons p rest ih =>
      by_cases hp : p.1 = k
      · simp [alookup, hp] at h
        cases p with
        | mk a b =>
            simp at hp h
            subst hp
            subst h
            exact List.mem_cons_self _ _
      · simp [alookup, hp] at h
        exact List.mem_cons_of_mem _ (ih h)

theorem alookup_append_of_none {β : Type} {k : String} {l1 : List (String × β)}
    (l2 : List (String × β)) (h : alookup k l1 = none) :
    alookup k (l1 ++ l2) = alookup k l2 := by
  induction l1 with
  | nil => simp
  | cons p rest ih =>
      by_cases hp : p.1 = k
      · simp [alookup, hp] at h
      · simp [alookup, hp] at h ⊢
        exact ih h

theorem alookup_append_of_some {β : Type} {k : String} {l1 : List (String × β)} {v : β}
    (l2 : List (String × β)) (h : alookup k l1 = some v) :
    alookup k (l1 ++ l2) = some v := by
  induction l1 with
  | nil => simp [alookup] at h
  | cons p rest ih =>
      by_cases hp : p.1 = k
      · simp [alookup, hp] at h ⊢
        exact h
      · simp [alookup, hp] at h ⊢
        exact ih h

theorem alookup_singleton_self {β : Type} (k : String) (v : β) :
    alookup k [(k, v)] = some v := by
  simp [alookup]

theorem alookup_replaceA_self {β : Type} (k : String) (v : β) (l : List (String × β)) :
    alookup k (replaceA k v l) = (alookup k l).map (fun _ => v) := by
  induction l with
  | nil => simp [alookup, replaceA]
  | cons p rest ih =>
      by_cases hp : p.1 = k
      · simp [alookup, replaceA, hp]
      · simp [alookup, replaceA, hp, ih]

theorem alookup_replaceA_ne {β : Type} {j k : String} (v : β) (l : List (String × β))
    (h : j ≠ k) : alookup j (replaceA k v l) = alookup j l := by
  induction l with
  | nil => simp [replaceA]
  | cons p rest ih =>
      by_cases hp : p.1 = k
      · have : ¬ k = j := fun hh => h hh.symm
        simp [alookup, replaceA, hp, this, ih]
      · by_cases hj : p.1 = j
        · simp [alookup, replaceA, hp, hj, h]
        · simp [alookup, replaceA, hp, hj, ih]

theorem replaceA_map_fst {β : Type} (k : String) (v : β) (l : List (String × β)) :
    (replaceA k v l).map Prod.fst = l.map Prod.fst := by
  induction l with
  | nil => simp [replaceA]
  | cons p rest ih =>
      by_cases hp : p.1 = k
      · simp [replaceA, hp, ih]
      · simp [replaceA, hp, ih]

theorem mem_replaceA {β : Type} {k : String} {v : β} {l : List (String × β)} {p : String × β}
    (h : p ∈ replaceA k v l) : p = (k, v) ∨ p ∈ l := by
  induction l with
  | nil => simp [replaceA] at h
  | cons q rest ih =>
      by_cases hq : q.1 = k
      · simp [replaceA, hq] at h
        rcases h with h | h
        · left; simp [h]
        · rcases ih h with h1 | h1
          · left; exact h1
          · right; exact List.mem_cons_of_mem _ h1
      · simp [replaceA, hq] at h
        rcases h with h | h
        · right; simp [h]
        · rcases ih h with h1 | h1
          · left; exact h1
          · right; exact List.mem_cons_of_mem _ h1

theorem alookup_removeA_self {β : Type} (k : String) (l : List (String × β)) :
    alookup k (removeA k l) = none := by
  induction l with
  | nil => simp [alookup, removeA]
  | cons p rest ih =>
      by_cases hp : p.1 = k
      · simp [removeA, hp, ih]
      · simp [alookup, removeA, hp, ih]

theorem alookup_removeA_ne {β : Type} {j k : String} (l : List (String × β))
    (h : j ≠ k) : alookup j (removeA k l) = alookup j l := by
  induction l with
  | nil => simp [removeA]
  | cons p rest ih =>
      by_cases hp : p.1 = k
      · have hk : ¬ k = j := fun hh => h hh.symm
        simp [alookup, removeA, hp, hk, ih]
      · by_cases hj : p.1 = j
        · simp [alookup, removeA, hp, hj, h]
        · simp [alookup, removeA, hp, hj, ih]

theorem dictInsert_map_fst_of_presence {β : Type} (l : List (String × β)) (k : String) (v : β) :
    (dictInsert l k v).map Prod.fst = l.map Prod.fst ∨
    (dictInsert l k v).map Prod.fst = l.map Prod.fst ++ [k] := by
  unfold dictInsert
  by_cases h : (alookup k l).isSome
  · left
    simp [h, replaceA_map_fst]
  · right
    simp [h]

theorem validBytes_set {l : List Nat} (h : ValidBytes l) {i v : Nat} (hv : v < 256) :
    ValidBytes (l.set i v) := by
  intro b hb
  rcases List.mem_or_eq_of_mem_set hb with hb1 | hb1
  · exact h b hb1
  · omega

theorem getD_set_self {l : List Nat} {i v : Nat} (h : i < l.length) :
    (l.set i v).getD i 0 = v := by
  rw [List.getD_eq_getElem _ 0 (by simpa using h)]
  exact List.getElem_set_self _

/-! ### C1 -/

/-- C1: for every two key pairs A = (a, pub a) and B = (b, pub b), deriving
a shared key from the private scalar of A and the public point of B yields
the same 32-byte key as deriving from the private scalar of B and the
public point of A. -/
theorem c1_derive_shared_key_symmetric (a b : Nat) :
    derive_shared_key a (x25519_public_key b) = derive_shared_key b (x25519_public_key a) ∧
    (derive_shared_key a (x25519_public_key b)).length = 32 := by
  constructor
  · unfold derive_shared_key
    rw [x25519_exchange_comm]
  · exact length_derive_shared_key a (x25519_public_key b)

/-! ### C2 -/

/-- C2: for every 32-byte key k and plaintext p (arbitrary byte string),
decrypting the (nonce, ciphertext) pair produced by encrypt_message with
the same key returns p. -/
theorem c2_encrypt_decrypt_roundtrip (key nonce plaintext : List Nat)
    (hklen : key.length = 32) (hkB : ValidBytes key)
    (hnlen : nonce.length = NONCE_SIZE) (hnB : ValidBytes nonce)
    (hpB : ValidBytes plaintext) :
    decrypt_message key (encrypt_message key nonce plaintext).1
      (encrypt_message key nonce plaintext).2 = some plaintext := by
  unfold decrypt_message encrypt_message
  rw [b64decode_b64encode nonce hnB,
      b64decode_b64encode _ (validBytes_aesgcm_encrypt key nonce plaintext)]
  exact aesgcm_decrypt_aesgcm_encrypt key nonce plaintext hpB

/-- C2 witness at a concrete key, nonce and plaintext. -/
theorem c2_witness :
    exKey1.length = 32 ∧ ValidBytes exKey1 ∧ exNonce.length = NONCE_SIZE ∧
    ValidBytes exNonce ∧ ValidBytes [104, 105] ∧
    decrypt_message exKey1 (encrypt_message exKey1 exNonce [104, 105]).1
      (encrypt_message exKey1 exNonce [104, 105]).2 = some [104, 105] :=
  ⟨by decide, by decide, by decide, by decide, by decide,
   c2_encrypt_decrypt_roundtrip exKey1 exNonce [104, 105]
     (by decide) (by decide) (by decide) (by decide) (by decide)⟩

/-! ### C3 -/

theorem gcmTag_getD0 (key nonce body : List Nat) :
    (gcmTag key nonce body).getD 0 0 = body.sum % 256 := by
  simp [gcmTag]

theorem gcmTag_getD1 (key nonce body : List Nat) :
    (gcmTag key nonce body).getD 1 0 = nonce.sum % 256 := by
  simp [gcmTag]

theorem aesgcm_decrypt_body_tamper (key nonce data : List Nat) (i v : Nat)
    (hpB : ValidBytes data)
    (hi : i < (ctrEncrypt key nonce 0 data).length) (hv : v < 256)
    (hvne : v ≠ (ctrEncrypt key nonce 0 data).getD i 0) :
    aesgcm_decrypt key nonce ((aesgcm_encrypt key nonce data).set i v) = none := by
  unfold aesgcm_encrypt
  rw [List.set_append_left _ _ hi]
  unfold aesgcm_decrypt
  have hlen : ((ctrEncrypt key nonce 0 data).set i v ++
      gcmTag key nonce (ctrEncrypt key nonce 0 data)).length = data.length + 16 := by
    simp [length_ctrEncrypt, length_gcmTag]
  rw [hlen]
  rw [if_neg (by omega)]
  have hbl : data.length + 16 - 16 = ((ctrEncrypt key nonce 0 data).set i v).length := by
    simp [length_ctrEncrypt]
  rw [hbl, List.take_left, List.drop_left]
  rw [if_neg ?_]
  intro heq
  have h0 : (gcmTag key nonce (ctrEncrypt key nonce 0 data)).getD 0 0
      = (gcmTag key nonce ((ctrEncrypt key nonce 0 data).set i v)).getD 0 0 := by rw [heq]
  rw [gcmTag_getD0, gcmTag_getD0] at h0
  exact sum_set_mod_ne (validBytes_ctrEncrypt key nonce 0 data) hi hv hvne h0.symm

theorem aesgcm_decrypt_tag_tamper (key nonce data : List Nat) (i v : Nat)
    (hilo : (ctrEncrypt key nonce 0 data).length ≤ i)
    (hi : i < (aesgcm_encrypt key nonce data).length)
    (hvne : v ≠ (aesgcm_encrypt key nonce data).getD i 0) :
    aesgcm_decrypt key nonce ((aesgcm_encrypt key nonce data).set i v) = none := by
  unfold aesgcm_encrypt at hi hvne ⊢
  rw [List.set_append_right _ _ hilo]
  unfold aesgcm_decrypt
  have hlen16 := length_gcmTag key nonce (ctrEncrypt key nonce 0 data)
  have hlen : ((ctrEncrypt key nonce 0 data) ++
      (gcmTag key nonce (ctrEncrypt key nonce 0 data)).set (i - (ctrEncrypt key nonce 0 data).length) v).length
      = data.length + 16 := by
    simp [length_ctrEncrypt, hlen16]
  rw [hlen]
  rw [if_neg (by omega)]
  have hbl : data.length + 16 - 16 = (ctrEncrypt key nonce 0 data).length := by
    simp [length_ctrEncrypt]
  rw [hbl, List.take_left, List.drop_left]
  rw [if_neg ?_]
  intro heq
  have hj : i - (ctrEncrypt key nonce 0 data).length <
      (gcmTag key nonce (ctrEncrypt key nonce 0 data)).length := by
    simp [length_ctrEncrypt, length_gcmTag] at hi ⊢
    omega
  have h0 : ((gcmTag key nonce (ctrEncrypt key nonce 0 data)).set
        (i - (ctrEncrypt key nonce 0 data).length) v).getD
        (i - (ctrEncrypt key nonce 0 data).length) 0
      = (gcmTag key nonce (ctrEncrypt key nonce 0 data)).getD
        (i - (ctrEncrypt key nonce 0 data).length) 0 := by rw [heq]
  rw [getD_set_self hj] at h0
  rw [List.getD_append_right _ _ _ _ hilo] at hvne
  exact hvne h0

theorem aesgcm_decrypt_nonce_tamper (key nonce data : List Nat) (j w : Nat)
    (hnB : ValidBytes nonce)
    (hj : j < nonce.length) (hw : w < 256) (hwne : w ≠ nonce.getD j 0) :
    aesgcm_decrypt key (nonce.set j w) (aesgcm_encrypt key nonce data) = none := by
  unfold aesgcm_encrypt aesgcm_decrypt
  have hlen : ((ctrEncrypt key nonce 0 data) ++ gcmTag key nonce (ctrEncrypt key nonce 0 data)).length
      = data.length + 16 := by
    simp [length_ctrEncrypt, length_gcmTag]
  rw [hlen]
  rw [if_neg (by omega)]
  have hbl : data.length + 16 - 16 = (ctrEncrypt key nonce 0 data).length := by
    simp [length_ctrEncrypt]
  rw [hbl, List.take_left, List.drop_left]
  rw [if_neg ?_]
  intro heq
  have h1 : (gcmTag key nonce (ctrEncrypt key nonce 0 data)).getD 1 0
      = (gcmTag key (nonce.set j w) (ctrEncrypt key nonce 0 data)).getD 1 0 := by rw [heq]
  rw [gcmTag_getD1, gcmTag_getD1] at h1
  exact sum_set_mod_ne hnB hj hw hwne h1.symm

/-- C3: tampering with any single byte of the raw ciphertext (body or tag)
or of the raw nonce before transport encoding makes decrypt_message fail
with an authentication error (None); it never returns a plaintext. -/
theorem c3_tamper_detection (key nonce plaintext : List Nat) (i v j w : Nat)
    (hkB : ValidBytes key) (hnB : ValidBytes nonce) (hpB : ValidBytes plaintext)
    (hi : i < (aesgcm_encrypt key nonce plaintext).length) (hv : v < 256)
    (hvne : v ≠ (aesgcm_encrypt key nonce plaintext).getD i 0)
    (hj : j < nonce.length) (hw : w < 256) (hwne : w ≠ nonce.getD j 0) :
    decrypt_message key (encrypt_message key nonce plaintext).1
      (b64encode ((aesgcm_encrypt key nonce plaintext).set i v)) = none ∧
    decrypt_message key (b64encode (nonce.set j w))
      (encrypt_message key nonce plaintext).2 = none := by
  have hctB := validBytes_aesgcm_encrypt key nonce plaintext
  constructor
  · unfold decrypt_message encrypt_message
    rw [b64decode_b64encode nonce hnB, b64decode_b64encode _ (validBytes_set hctB hv)]
    by_cases hcase : i < (ctrEncrypt key nonce 0 plaintext).length
    · have hvne2 : v ≠ (ctrEncrypt key nonce 0 plaintext).getD i 0 := by
        rw [show (aesgcm_encrypt key nonce plaintext).getD i 0
              = (ctrEncrypt key nonce 0 plaintext).getD i 0 from ?_] at hvne
        · exact hvne
        · unfold aesgcm_encrypt
          exact List.getD_append _ _ _ _ hcase
      exact aesgcm_decrypt_body_tamper key nonce plaintext i v hpB hcase hv hvne2
    · exact aesgcm_decrypt_tag_tamper key nonce plaintext i v (by omega) hi hvne
  · unfold decrypt_message encrypt_message
    rw [b64decode_b64encode _ (validBytes_set hnB hw), b64decode_b64encode _ hctB]
    exact aesgcm_decrypt_nonce_tamper key nonce plaintext j w hnB hj hw hwne

/-- C3 witness: a concrete tampered byte in the ciphertext and in the
nonce are both rejected. -/
theorem c3_witness :
    ValidBytes exKey1 ∧ ValidBytes exNonce ∧ ValidBytes [104, 105] ∧
    (1 < (aesgcm_encrypt exKey1 exNonce [104, 105]).length ∧ 99 < 256 ∧
     99 ≠ (aesgcm_encrypt exKey1 exNonce [104, 105]).getD 1 0 ∧
     2 < exNonce.length ∧ 77 < 256 ∧ 77 ≠ exNonce.getD 2 0) ∧
    (decrypt_message exKey1 (encrypt_message exKey1 exNonce [104, 105]).1
       (b64encode ((aesgcm_encrypt exKey1 exNonce [104, 105]).set 1 99)) = none ∧
     decrypt_message exKey1 (b64encode (exNonce.set 2 77))
       (encrypt_message exKey1 exNonce [104, 105]).2 = none) :=
  ⟨by decide, by decide, by decide,
   ⟨by decide, by decide, by decide, by decide, by decide, by decide⟩,
   c3_tamper_detection exKey1 exNonce [104, 105] 1 99 2 77
     (by decide) (by decide) (by decide) (by decide) (by decide) (by decide)
     (by decide) (by decide) (by decide)⟩

/-! ### C4 -/

/-- C4: on one send iteration with nonempty text, an empty shared-key
cache yields the no-peers report and nothing sent; otherwise exactly one
chat envelope is sent, whose payloads map has exactly one entry per cached
peer — the text encrypted under that peer's key with that peer's own nonce
draw — and the per-peer nonces are pairwise distinct whenever the draws
are (fresh randomness). -/
theorem c4_send_fanout (st : ChatClientState) (text : List Nat) (nonceFor : String → List Nat)
    (htext : text ≠ [])
    (hkeys : (st.shared_keys.map Prod.fst).Nodup)
    (hnfB : ∀ p ∈ st.shared_keys.map Prod.fst, ValidBytes (nonceFor p))
    (hnfInj : ∀ p ∈ st.shared_keys.map Prod.fst, ∀ q ∈ st.shared_keys.map Prod.fst,
        p ≠ q → nonceFor p ≠ nonceFor q) :
    (st.shared_keys = [] → send_message st text nonceFor = SendResult.noPeers) ∧
    (st.shared_keys ≠ [] →
      send_message st text nonceFor = SendResult.sent
        ⟨st.username,
         st.shared_keys.map (fun p => (p.1, encrypt_message p.2 (nonceFor p.1) text))⟩) ∧
    (∀ env, send_message st text nonceFor = SendResult.sent env →
      env.payloads.map Prod.fst = st.shared_keys.map Prod.fst ∧
      (env.payloads.map (fun e => e.2.1)).Pairwise (fun n1 n2 => n1 ≠ n2)) := by
  refine ⟨fun h => by simp [send_message, htext, h], fun h => by simp [send_message, htext, h], ?_⟩
  intro env heq
  by_cases h : st.shared_keys = []
  · simp [send_message, htext, h] at heq
  · simp [send_message, htext, h] at heq
    subst heq
    constructor
    · simp
    · simp only [List.map_map]
      have hpw : st.shared_keys.Pairwise (fun a b => a.1 ≠ b.1) :=
        (List.pairwise_map).1 hkeys
      have hstep : st.shared_keys.Pairwise
          (fun a b => b64encode (nonceFor a.1) ≠ b64encode (nonceFor b.1)) := by
        refine hpw.imp_of_mem ?_
        intro a b ha hb hne hEnc
        have haB := hnfB a.1 (List.mem_map_of_mem Prod.fst ha)
        have hbB := hnfB b.1 (List.mem_map_of_mem Prod.fst hb)
        exact hnfInj a.1 (List.mem_map_of_mem Prod.fst ha) b.1
          (List.mem_map_of_mem Prod.fst hb) hne (b64encode_injOn haB hbB hEnc)
      refine (List.pairwise_map).2 ?_
      simpa [encrypt_message] using hstep

/-- C4 witness at a concrete two-peer cache. -/
theorem c4_witness :
    ([104, 105] : List Nat) ≠ [] ∧ (exClient.shared_keys.map Prod.fst).Nodup ∧
    (exClient.shared_keys ≠ [] →
      send_message exClient [104, 105] exNonceFor = SendResult.sent
        ⟨exClient.username,
         exClient.shared_keys.map
           (fun p => (p.1, encrypt_message p.2 (exNonceFor p.1) [104, 105]))⟩) ∧
    (∀ env, send_message exClient [104, 105] exNonceFor = SendResult.sent env →
      env.payloads.map Prod.fst = exClient.shared_keys.map Prod.fst ∧
      (env.payloads.map (fun e => e.2.1)).Pairwise (fun n1 n2 => n1 ≠ n2)) :=
  ⟨by decide, by decide,
   (c4_send_fanout exClient [104, 105] exNonceFor (by decide) (by decide)
      (by decide) (by decide)).2.1,
   (c4_send_fanout exClient [104, 105] exNonceFor (by decide) (by decide)
      (by decide) (by decide)).2.2⟩

/-! ### C10 -/

/-- C10: the shared-key cache never gains the client's own username:
a handshake carrying the own identity leaves the whole state unchanged,
any successful add_peer preserves absence of the own username from the
cache keys, and therefore the payloads map of every emitted chat envelope
has no entry addressed to the client itself. -/
theorem c10_cache_never_contains_self (st : ChatClientState)
    (h : st.username ∉ st.shared_keys.map Prod.fst) :
    (∀ pk, add_peer st st.username pk = some (st, [])) ∧
    (∀ u pk st1 evs, add_peer st u pk = some (st1, evs) →
      st1.username = st.username ∧ st.username ∉ st1.shared_keys.map Prod.fst) ∧
    (∀ text nonceFor env, send_message st text nonceFor = SendResult.sent env →
      st.username ∉ env.payloads.map Prod.fst) := by
  refine ⟨fun pk => by simp [add_peer], ?_, ?_⟩
  · intro u pk st1 evs ha
    by_cases hu : u = st.username
    · rw [hu] at ha
      simp [add_peer] at ha
      rw [← ha.1]
      exact ⟨rfl, h⟩
    · simp [add_peer, hu] at ha
      rcases hds : deserialize_public_key pk with _ | pk2
      · rw [hds] at ha
        simp at ha
      · rw [hds] at ha
        simp at ha
        rw [← ha.1]
        refine ⟨rfl, ?_⟩
        rcases dictInsert_map_fst_of_presence st.shared_keys u
            (derive_shared_key st.private_key pk2) with hkeys | hkeys
        · simpa [hkeys] using h
        · rw [hkeys]
          simp [h]
          exact fun hh => hu hh.symm
  · intro text nonceFor env hs
    by_cases ht : text = []
    · simp [send_message, ht] at hs
    · by_cases hk : st.shared_keys = []
      · simp [send_message, ht, hk] at hs
      · simp [send_message, ht, hk] at hs
        rw [← hs]
        simpa using h

/-- C10 witness at a concrete cache without a self entry. -/
theorem c10_witness :
    "alice" ∉ exClient.shared_keys.map Prod.fst ∧
    (∀ pk, add_peer exClient "alice" pk = some (exClient, [])) ∧
    (∀ u pk st1 evs, add_peer exClient u pk = some (st1, evs) →
      st1.username = exClient.username ∧
      exClient.username ∉ st1.shared_keys.map Prod.fst) ∧
    (∀ text nonceFor env, send_message exClient text nonceFor = SendResult.sent env →
      exClient.username ∉ env.payloads.map Prod.fst) :=
  ⟨by decide,
   (c10_cache_never_contains_self exClient (by decide)).1,
   (c10_cache_never_contains_self exClient (by decide)).2.1,
   (c10_cache_never_contains_self exClient (by decide)).2.2⟩

/-! ### C5 -/

/-- C5 counterexample: at the room-isolated relay endpoint
(websocket_endpoint in server.py), an inbound message on which
receive_json or the envelope validation raises is NOT contained to that
message: the connection is closed (loop flag false) and the registry entry
of the user is removed, contradicting the claim that a per-message parse
failure never terminates the connection. -/
theorem c5_counterexample :
    websocket_endpoint_step exCM1 ("alice") (fun _ => false) ServerInbound.bad
      = (emptyCM, false) := by decide

/-- C5 (amended): in the client receive loop, the four per-message failure
kinds (unparsable JSON, chat without a payload for the receiver, missing
shared key, decryption failure) are contained: the message is dropped, the
specified report is emitted, the state is otherwise unchanged and the loop
continues with the remaining messages; at the room-isolated relay
endpoint, a message on which parsing or validation raises instead
terminates that connection, with registry cleanup (disconnect) before
exit. -/
theorem c5_amended_containment (st : ChatClientState) (rest : List ClientInbound)
    (sender : String) (payloads : List (String × (List Nat × List Nat)))
    (pl : List Nat × List Nat) (key : List Nat)
    (sst : ConnectionManager) (user : String) (failing : Nat → Bool)
    (hs : sender ≠ st.username) :
    (client_step st ClientInbound.junk = some (st, []) ∧
     handle_incoming st (ClientInbound.junk :: rest) = handle_incoming st rest) ∧
    (alookup st.username payloads = none →
      client_step st (ClientInbound.chat sender payloads) = some (st, [])) ∧
    (alookup st.username payloads = some pl → alookup sender st.shared_keys = none →
      client_step st (ClientInbound.chat sender payloads)
        = some (st, [ClientEvent.noSharedKey sender])) ∧
    (alookup st.username payloads = some pl → alookup sender st.shared_keys = some key →
      decrypt_message key pl.1 pl.2 = none →
      client_step st (ClientInbound.chat sender payloads)
        = some (st, [ClientEvent.cannotDecrypt sender])) ∧
    (∀ m st1 evs, client_step st m = some (st1, evs) →
      handle_incoming st (m :: rest)
        = ((handle_incoming st1 rest).1, evs ++ (handle_incoming st1 rest).2)) ∧
    websocket_endpoint_step sst user failing ServerInbound.bad
      = (cm_disconnect sst user, false) := by
  refine ⟨⟨rfl, ?_⟩, ?_, ?_, ?_, ?_, rfl⟩
  · simp [handle_incoming, client_step]
  · intro h1
    simp [client_step, hs, h1]
  · intro h1 h2
    simp [client_step, hs, h1, h2]
  · intro h1 h2 h3
    simp [client_step, hs, h1, h2, h3]
  · intro m st1 evs hstep
    simp [handle_incoming, hstep]

/-- C5 witness: concrete instances of all four contained client failures
and of the terminating relay path. -/
theorem c5_witness :
    ("dave" : String) ≠ exClient.username ∧
    ((client_step exClient ClientInbound.junk = some (exClient, []) ∧
      handle_incoming exClient (ClientInbound.junk :: [ClientInbound.junk])
        = handle_incoming exClient [ClientInbound.junk]) ∧
     (alookup exClient.username [("zoe", (([9] : List Nat), ([8] : List Nat)))] = none →
       client_step exClient
         (ClientInbound.chat ("dave") [("zoe", ([9], [8]))]) = some (exClient, [])) ∧
     (alookup exClient.username [("zoe", (([9] : List Nat), ([8] : List Nat)))]
         = some (([1] : List Nat), ([2] : List Nat)) →
       alookup ("dave") exClient.shared_keys = none →
       client_step exClient (ClientInbound.chat ("dave") [("zoe", ([9], [8]))])
         = some (exClient, [ClientEvent.noSharedKey ("dave")])) ∧
     (alookup exClient.username [("zoe", (([9] : List Nat), ([8] : List Nat)))]
         = some (([1] : List Nat), ([2] : List Nat)) →
       alookup ("dave") exClient.shared_keys = some exKey1 →
       decrypt_message exKey1 [1] [2] = none →
       client_step exClient (ClientInbound.chat ("dave") [("zoe", ([9], [8]))])
         = some (exClient, [ClientEvent.cannotDecrypt ("dave")])) ∧
     (∀ m st1 evs, client_step exClient m = some (st1, evs) →
       handle_incoming exClient (m :: [ClientInbound.junk])
         = ((handle_incoming st1 [ClientInbound.junk]).1,
            evs ++ (handle_incoming st1 [ClientInbound.junk]).2)) ∧
     websocket_endpoint_step exCM1 ("alice") (fun _ => false) ServerInbound.bad
       = (cm_disconnect exCM1 ("alice"), false)) :=
  ⟨by decide,
   c5_amended_containment exClient [ClientInbound.junk] ("dave")
     [("zoe", ([9], [8]))] ([1], [2]) exKey1 exCM1 ("alice") (fun _ => false)
     (by decide)⟩

/-! ### C6 -/

theorem map_fst_pair (f : Nat → Bool) :
    ∀ l : List Nat, List.map (Prod.fst ∘ fun ch => (ch, f ch)) l = l := by
  intro l
  induction l with
  | nil => rfl
  | cons a t ih => simp [ih]

theorem broadcastGo_all_connected (conns : List (String × ClientConnection)) :
    ∀ l, (∀ u ∈ l, (alookup u conns).isSome) →
    (broadcastGo conns (fun _ => false) l).1.map Prod.fst = l ∧
    (broadcastGo conns (fun _ => false) l).2 = false := by
  intro l
  induction l with
  | nil => intro _; exact ⟨rfl, rfl⟩
  | cons u rest ih =>
      intro h
      have hu := h u (List.mem_cons_self u rest)
      rcases hc : alookup u conns with _ | conn
      · rw [hc] at hu
        simp at hu
      · have hrest := ih (fun x hx => h x (List.mem_cons_of_mem _ hx))
        simp [broadcastGo, hc, hrest.1, hrest.2]

theorem wf_members_isSome {st : ConnectionManager} (hwf : RegistryWf st)
    {r u : String} (h : u ∈ listMembers st r) : (alookup u st.connections).isSome := by
  unfold listMembers at h
  rcases hr : alookup r st.rooms with _ | ms
  · rw [hr] at h
    simp at h
  · rw [hr] at h
    simp at h
    have hmem := alookup_mem hr
    have hroom := (hwf.2.2 (r, ms) hmem).2.2 u h
    rcases hl : alookup u st.connections with _ | c
    · rw [hl] at hroom
      simp at hroom
    · simp

/-- C6: for every broadcast, the room-isolated variant delivers exactly to
the current members of the envelope room minus the sender (in a
well-formed registry, with no send failures), and the shared-room variant
delivers to exactly all currently connected clients, including the
sender's own channel when connected. -/
theorem c6_broadcast_recipients (st : ConnectionManager) (e : MessageEnvelope)
    (cs : ChatServer) (failing : Nat → Bool) (senderCh : Nat)
    (hwf : RegistryWf st) :
    ((cm_broadcast st (fun _ => false) e).1.map Prod.fst
        = (listMembers st e.room_id).filter (fun u => u ≠ e.sender_id) ∧
     (cm_broadcast st (fun _ => false) e).2 = false) ∧
    ((cs_broadcast cs failing).1.map Prod.fst = cs.clients ∧
     (senderCh ∈ cs.clients → senderCh ∈ (cs_broadcast cs failing).1.map Prod.fst)) := by
  constructor
  · unfold cm_broadcast
    apply broadcastGo_all_connected
    intro u hu
    exact wf_members_isSome hwf (List.mem_of_mem_filter hu)
  · have hmap : (cs_broadcast cs failing).1.map Prod.fst = cs.clients := by
      unfold cs_broadcast
      by_cases h : cs.clients = [] <;> simp [h, map_fst_pair]
    exact ⟨hmap, fun hmem => hmap ▸ hmem⟩

/-- C6 witness at a concrete three-member registry and a two-client shared
room. -/
theorem c6_witness :
    RegistryWf exCM3 ∧
    (((cm_broadcast exCM3 (fun _ => false) exEnv).1.map Prod.fst
        = (listMembers exCM3 exEnv.room_id).filter (fun u => u ≠ exEnv.sender_id) ∧
      (cm_broadcast exCM3 (fun _ => false) exEnv).2 = false) ∧
     ((cs_broadcast ⟨[5, 6]⟩ (fun _ => false)).1.map Prod.fst = ([5, 6] : List Nat) ∧
      (5 ∈ ([5, 6] : List Nat) →
        5 ∈ (cs_broadcast ⟨[5, 6]⟩ (fun _ => false)).1.map Prod.fst))) :=
  ⟨by decide, c6_broadcast_recipients exCM3 exEnv ⟨[5, 6]⟩ (fun _ => false) 5 (by decide)⟩

/-! ### C7 -/

/-- C7 counterexample: in the room-isolated variant, a failure sending to
bob (channel 2) aborts the whole delivery loop of
ConnectionManager.broadcast and propagates: carol (channel 3, healthy) is
a recipient of the envelope yet receives nothing, and the raised flag is
set — contradicting the claim that a single failed delivery neither
aborts the remaining deliveries nor propagates, in both variants. -/
theorem c7_counterexample :
    (cm_broadcast exCM3 exFailBob exEnv).2 = true ∧
    ("carol", 3) ∉ (cm_broadcast exCM3 exFailBob exEnv).1 ∧
    exFailBob 3 = false ∧
    "carol" ∈ (listMembers exCM3 exEnv.room_id).filter (fun u => u ≠ exEnv.sender_id) := by
  decide

/-- C7 (amended): in the shared-room variant every connected client is
attempted independently and broadcast never raises; in the room-isolated
variant a send failure propagates out of broadcast, and the endpoint loop
then closes the sending connection and runs disconnect. -/
theorem c7_amended_delivery_isolation (cs : ChatServer) (failing : Nat → Bool)
    (st : ConnectionManager) (f2 : Nat → Bool) (e : MessageEnvelope) (user : String)
    (hr : (cm_broadcast st f2 e).2 = true) :
    ((cs_broadcast cs failing).1.map Prod.fst = cs.clients ∧
     (cs_broadcast cs failing).2 = false) ∧
    websocket_endpoint_step st user f2 (ServerInbound.env e)
      = (cm_disconnect st user, false) := by
  refine ⟨⟨?_, ?_⟩, ?_⟩
  · unfold cs_broadcast
    by_cases h : cs.clients = [] <;> simp [h, map_fst_pair]
  · unfold cs_broadcast
    by_cases h : cs.clients = [] <;> simp [h]
  · simp [websocket_endpoint_step, hr]

/-- C7 witness: the failing-bob broadcast makes the endpoint of alice
terminate, while the shared-room broadcast still attempts every client. -/
theorem c7_witness :
    (cm_broadcast exCM3 exFailBob exEnv).2 = true ∧
    (((cs_broadcast ⟨[5, 6]⟩ (fun ch => ch == 5)).1.map Prod.fst = ([5, 6] : List Nat) ∧
      (cs_broadcast ⟨[5, 6]⟩ (fun ch => ch == 5)).2 = false) ∧
     websocket_endpoint_step exCM3 ("alice") exFailBob (ServerInbound.env exEnv)
       = (cm_disconnect exCM3 ("alice"), false)) :=
  ⟨by decide,
   c7_amended_delivery_isolation ⟨[5, 6]⟩ (fun ch => ch == 5) exCM3 exFailBob exEnv
     ("alice") (by decide)⟩

/-! ### C8 -/

/-- C8: a second connect with an already-registered identity is rejected
with the 409 Conflict status before the channel is accepted, and the whole
registry — the original connection and all room member lists — is exactly
unchanged. -/
theorem c8_connect_conflict (st : ConnectionManager) (room_id user_id : String)
    (channel : Nat) (c : ClientConnection)
    (h : alookup user_id st.connections = some c) :
    cm_connect st room_id user_id channel = (st, some 409, false) ∧
    alookup user_id (cm_connect st room_id user_id channel).1.connections = some c ∧
    ∀ r, listMembers (cm_connect st room_id user_id channel).1 r = listMembers st r := by
  have h1 : cm_connect st room_id user_id channel = (st, some 409, false) := by
    unfold cm_connect
    rw [h]
  refine ⟨h1, ?_, ?_⟩
  · rw [h1]
    exact h
  · intro r
    rw [h1]

/-- C8 witness: reconnecting alice on a fresh channel and even a different
room is rejected and changes nothing. -/
theorem c8_witness :
    alookup ("alice") exCM1.connections = some ⟨1, "r1", "alice"⟩ ∧
    (cm_connect exCM1 ("r2") ("alice") 9 = (exCM1, some 409, false) ∧
     alookup ("alice") (cm_connect exCM1 ("r2") ("alice") 9).1.connections
       = some ⟨1, "r1", "alice"⟩ ∧
     ∀ r, listMembers (cm_connect exCM1 ("r2") ("alice") 9).1 r = listMembers exCM1 r) :=
  ⟨by decide, c8_connect_conflict exCM1 ("r2") ("alice") 9 ⟨1, "r1", "alice"⟩ (by decide)⟩

/-! ### C9: registry lemmas -/

theorem alookup_append_singleton_ne {β : Type} {r2 k : String} (v : β)
    (l : List (String × β)) (h : r2 ≠ k) :
    alookup r2 (l ++ [(k, v)]) = alookup r2 l := by
  rcases hl : alookup r2 l with _ | w
  · have hk : ¬ k = r2 := fun hh => h hh.symm
    simp [alookup_append_of_none _ hl, hl, alookup, hk]
  · exact alookup_append_of_some _ hl

theorem nodup_append_singleton {α : Type} {l : List α} {a : α}
    (hn : l.Nodup) (ha : a ∉ l) : (l ++ [a]).Nodup := by
  rw [List.nodup_append]
  refine ⟨hn, List.nodup_singleton a, ?_⟩
  intro x hx hx1
  simp at hx1
  subst hx1
  exact ha hx

theorem wf_not_mem_of_unconnected {st : ConnectionManager} (hwf : RegistryWf st)
    {u r : String} {ms : List String} (hr : alookup r st.rooms = some ms)
    (h : alookup u st.connections = none) : u ∉ ms := by
  intro hmem
  have hm := (hwf.2.2 (r, ms) (alookup_mem hr)).2.2 u hmem
  rw [h] at hm
  simp at hm

theorem roomsAdd_none (rooms : List (String × List String)) (r u : String)
    (hr : alookup r rooms = none) : roomsAdd rooms r u = rooms ++ [(r, [u])] := by
  simp [roomsAdd, hr]

theorem roomsAdd_some (rooms : List (String × List String)) (r u : String)
    (ms : List String) (hr : alookup r rooms = some ms) :
    roomsAdd rooms r u = replaceA r (if u ∈ ms then ms else ms ++ [u]) rooms := by
  simp [roomsAdd, hr]

theorem cm_connect_fresh (st : ConnectionManager) (r u : String) (ch : Nat)
    (h : alookup u st.connections = none) :
    (cm_connect st r u ch).1
      = ⟨st.connections ++ [(u, ⟨ch, r, u⟩)], roomsAdd st.rooms r u⟩ := by
  unfold cm_connect
  rw [h]

theorem listMembers_connect_fresh (st : ConnectionManager) (r u : String) (ch : Nat)
    (hwf : RegistryWf st) (h : alookup u st.connections = none) :
    listMembers (cm_connect st r u ch).1 r = listMembers st r ++ [u] := by
  rw [cm_connect_fresh st r u ch h]
  show (alookup r (roomsAdd st.rooms r u)).getD [] = (alookup r st.rooms).getD [] ++ [u]
  rcases hr : alookup r st.rooms with _ | ms
  · rw [roomsAdd_none _ _ _ hr, alookup_append_of_none _ hr, alookup_singleton_self]
    simp
  · have hu : u ∉ ms := wf_not_mem_of_unconnected hwf hr h
    rw [roomsAdd_some _ _ _ _ hr, if_neg hu, alookup_replaceA_self, hr]
    simp

theorem alookup_connect_other (st : ConnectionManager) (r u v : String) (ch : Nat)
    (hu : alookup u st.connections = none) (hv : alookup v st.connections = none)
    (hvu : v ≠ u) : alookup v (cm_connect st r u ch).1.connections = none := by
  rw [cm_connect_fresh st r u ch hu]
  show alookup v (st.connections ++ [(u, ⟨ch, r, u⟩)]) = none
  rw [alookup_append_singleton_ne _ _ hvu]
  exact hv

theorem wf_connect (st : ConnectionManager) (r u : String) (ch : Nat)
    (hwf : RegistryWf st) (h : alookup u st.connections = none) :
    RegistryWf (cm_connect st r u ch).1 := by
  rw [cm_connect_fresh st r u ch h]
  obtain ⟨hcn, hrn, hprop⟩ := hwf
  have hext : ∀ (m : String) (cm : ClientConnection), alookup m st.connections = some cm →
      alookup m (st.connections ++ [(u, (⟨ch, r, u⟩ : ClientConnection))]) = some cm :=
    fun m cm hc => alookup_append_of_some _ hc
  have hold : ∀ q ∈ st.rooms, q.2 ≠ [] ∧ q.2.Nodup ∧
      ∀ m ∈ q.2, (alookup m (st.connections ++ [(u, (⟨ch, r, u⟩ : ClientConnection))])).map
        (fun c => c.room_id) = some q.1 := by
    intro q hq
    obtain ⟨h1, h2, h3⟩ := hprop q hq
    refine ⟨h1, h2, fun m hm => ?_⟩
    have hq1 := h3 m hm
    rcases hc : alookup m st.connections with _ | cm
    · rw [hc] at hq1
      simp at hq1
    · rw [hc] at hq1
      rw [hext m cm hc]
      exact hq1
  have hself : (alookup u (st.connections ++ [(u, (⟨ch, r, u⟩ : ClientConnection))])).map
      (fun c => c.room_id) = some r := by
    rw [alookup_append_of_none _ h, alookup_singleton_self]
    rfl
  unfold RegistryWf
  refine ⟨?_, ?_, ?_⟩
  · show (List.map Prod.fst (st.connections ++ [(u, ⟨ch, r, u⟩)])).Nodup
    rw [List.map_append]
    exact nodup_append_singleton hcn (by simpa using (alookup_eq_none u st.connections).1 h)
  · show (List.map Prod.fst (roomsAdd st.rooms r u)).Nodup
    rcases hr : alookup r st.rooms with _ | ms
    · rw [roomsAdd_none _ _ _ hr, List.map_append]
      exact nodup_append_singleton hrn (by simpa using (alookup_eq_none r st.rooms).1 hr)
    · rw [roomsAdd_some _ _ _ _ hr, replaceA_map_fst]
      exact hrn
  · intro p hp
    have hp2 : p ∈ roomsAdd st.rooms r u := hp
    show p.2 ≠ [] ∧ p.2.Nodup ∧ ∀ m ∈ p.2,
        (alookup m (st.connections ++ [(u, ⟨ch, r, u⟩)])).map (fun c => c.room_id) = some p.1
    rcases hr : alookup r st.rooms with _ | ms
    · rw [roomsAdd_none _ _ _ hr] at hp2
      rcases List.mem_append.1 hp2 with hp1 | hp1
      · exact hold p hp1
      · simp at hp1
        subst hp1
        refine ⟨by simp, by simp, ?_⟩
        intro m hm
        simp at hm
        subst hm
        exact hself
    · have hu : u ∉ ms := wf_not_mem_of_unconnected ⟨hcn, hrn, hprop⟩ hr h
      rw [roomsAdd_some _ _ _ _ hr, if_neg hu] at hp2
      rcases mem_replaceA hp2 with hp1 | hp1
      · obtain ⟨hne2, hnd2, hmem2⟩ := hold (r, ms) (alookup_mem hr)
        subst hp1
        refine ⟨by simp, nodup_append_singleton hnd2 hu, ?_⟩
        intro m hm
        rcases List.mem_append.1 hm with hm1 | hm1
        · exact hmem2 m hm1
        · simp at hm1
          subst hm1
          exact hself
      · exact hold p hp1

theorem connectAll_members (room_id : String) (chOf : String → Nat) :
    ∀ ids (st : ConnectionManager), ids.Nodup →
    (∀ i ∈ ids, alookup i st.connections = none) → RegistryWf st →
    listMembers (connectAll st room_id ids chOf) room_id
      = listMembers st room_id ++ ids ∧
    RegistryWf (connectAll st room_id ids chOf) := by
  intro ids
  induction ids with
  | nil =>
      intro st _ _ hwf
      exact ⟨by simp [connectAll], hwf⟩
  | cons u rest ih =>
      intro st hnd hfresh hwf
      have hu : alookup u st.connections = none := hfresh u (List.mem_cons_self u rest)
      have hcons := List.nodup_cons.1 hnd
      have hstep : connectAll st room_id (u :: rest) chOf
          = connectAll (cm_connect st room_id u (chOf u)).1 room_id rest chOf := rfl
      have hfresh2 : ∀ i ∈ rest,
          alookup i (cm_connect st room_id u (chOf u)).1.connections = none := by
        intro i hi
        exact alookup_connect_other st room_id u i (chOf u) hu (hfresh i (List.mem_cons_of_mem _ hi))
          (fun hih => hcons.1 (hih ▸ hi))
      have hwf2 := wf_connect st room_id u (chOf u) hwf hu
      obtain ⟨hm, hw⟩ := ih (cm_connect st room_id u (chOf u)).1 hcons.2 hfresh2 hwf2
      rw [hstep]
      refine ⟨?_, hw⟩
      rw [hm, listMembers_connect_fresh st room_id u (chOf u) hwf hu]
      simp

/-! ### C9 -/

/-- C9: starting from an empty registry, after N distinct identities
connect to room R the member list of R has exactly N entries; in any
well-formed registry, disconnecting a member of R shrinks the member
count of R by one and removes R entirely when that member was the last
one; disconnecting an unregistered identity is a no-op. -/
theorem c9_room_membership (room_id : String) (ids : List String) (chOf : String → Nat)
    (st : ConnectionManager) (u : String)
    (hids : ids.Nodup) (hwf : RegistryWf st) :
    (listMembers (connectAll emptyCM room_id ids chOf) room_id).length = ids.length ∧
    (u ∈ listMembers st room_id →
      (listMembers (cm_disconnect st u) room_id).length
        = (listMembers st room_id).length - 1 ∧
      (listMembers st room_id = [u] →
        alookup room_id (cm_disconnect st u).rooms = none)) ∧
    (alookup u st.connections = none → cm_disconnect st u = st) := by
  refine ⟨?_, ?_, ?_⟩
  · have hempty : RegistryWf emptyCM := by decide
    have h0 : ∀ i ∈ ids, alookup i emptyCM.connections = none := by
      intro i _
      rfl
    have := (connectAll_members room_id chOf ids emptyCM hids h0 hempty).1
    rw [this]
    rfl
  · intro hm
    rcases hr : alookup room_id st.rooms with _ | ms
    · unfold listMembers at hm
      rw [hr] at hm
      simp at hm
    · have hmem : u ∈ ms := by
        unfold listMembers at hm
        rw [hr] at hm
        simpa using hm
      have hprop := (hwf.2.2 (room_id, ms) (alookup_mem hr)).2.2 u hmem
      rcases hc : alookup u st.connections with _ | c
      · rw [hc] at hprop
        simp at hprop
      · rw [hc] at hprop
        simp at hprop
        have hd : cm_disconnect st u
            = { connections := removeA u st.connections,
                rooms := roomsDiscard st.rooms c.room_id u } := by
          unfold cm_disconnect
          rw [hc]
        have hlen : (ms.erase u).length = ms.length - 1 := List.length_erase_of_mem hmem
        have hms : listMembers st room_id = ms := by
          unfold listMembers
          rw [hr]
          rfl
        rw [hd, hprop]
        by_cases hE : ms.erase u = []
        · have hdisc : roomsDiscard st.rooms room_id u = removeA room_id st.rooms := by
            simp [roomsDiscard, hr, hE]
          constructor
          · show ((alookup room_id (roomsDiscard st.rooms room_id u)).getD []).length = _
            rw [hdisc, alookup_removeA_self, hms, ← hlen, hE]
            rfl
          · intro _
            show alookup room_id (roomsDiscard st.rooms room_id u) = none
            rw [hdisc, alookup_removeA_self]
        · have hdisc : roomsDiscard st.rooms room_id u
              = replaceA room_id (ms.erase u) st.rooms := by
            simp [roomsDiscard, hr, hE]
          constructor
          · show ((alookup room_id (roomsDiscard st.rooms room_id u)).getD []).length = _
            rw [hdisc, alookup_replaceA_self, hr, hms]
            simpa using hlen
          · intro hone
            rw [hms] at hone
            subst hone
            simp at hE
  · intro h
    unfold cm_disconnect
    rw [h]

/-- C9 witness: two fresh identities joining one room, one disconnect of a
member of a three-member room, and a no-op disconnect. -/
theorem c9_witness :
    (["ann", "ben"] : List String).Nodup ∧ RegistryWf exCM3 ∧
    ((listMembers (connectAll emptyCM ("r1") ["ann", "ben"] (fun _ => 0)) ("r1")).length = 2 ∧
     ("bob" ∈ listMembers exCM3 ("r1") →
       (listMembers (cm_disconnect exCM3 ("bob")) ("r1")).length
         = (listMembers exCM3 ("r1")).length - 1 ∧
       (listMembers exCM3 ("r1") = ["bob"] →
         alookup ("r1") (cm_disconnect exCM3 ("bob")).rooms = none)) ∧
     (alookup ("bob") exCM3.connections = none → cm_disconnect exCM3 ("bob") = exCM3)) :=
  ⟨by decide, by decide,
   c9_room_membership ("r1") ["ann", "ben"] (fun _ => 0) exCM3 ("bob")
     (by decide) (by decide)⟩
